import Mathlib

/-!
Verification of the conversation-to-device dispatch core of the
`iosxe_chatbot` repository (file `src/ixc.py`).

The Python source is shallowly embedded below.  External collaborators
(the netmiko device session, the OpenAI gateway, and the operator's
keyboard) are modelled as explicit data: the device as a `Conn` record
of response functions, the gateway as a script of already-delivered
results, the operator as a list of typed lines.  Every stateful code
path of `run_chat_loop`, `process_llm_commands`, `send_device_command`,
`query_llm_api`, `confirm_config_change` and the context-window
operations of `process_operator_commands` is translated directly from
the source; line numbers in comments refer to `src/ixc.py`.
-/

/-- Python values that appear inside a parsed LLM reply dictionary.
`ast.literal_eval` on the wire contract yields a dict whose values are
strings (for `answer`) or lists of strings (for `command` /
`configure`); `int` covers other literal payloads. -/
inductive PyVal where
  | str (s : String)
  | strList (xs : List String)
  | int (n : Int)
deriving DecidableEq, Repr

/-- A parsed Python dict, as an association list (keys unique by dict
semantics). `[]` is the empty dict `{}` returned by `query_llm_api` on
error. -/
abbrev PyDict := List (String × PyVal)

/-- Dict key lookup, `d[k]` / `d.get(k)`. -/
def pyGet : PyDict → String → Option PyVal
  | [], _ => none
  | (k, v) :: rest, key => if k = key then some v else pyGet rest key

/-- Python `key in d.keys()`. -/
def hasKey (d : PyDict) (key : String) : Bool :=
  (pyGet d key).isSome

/-- The iterable behind `reply["command"]` (`ixc.py` line 841): the
list of command strings of a `Command` reply. -/
def cmdList (d : PyDict) : List String :=
  match pyGet d "command" with
  | some (.strList xs) => xs
  | _ => []

/-- The lines behind `reply["configure"]` (`ixc.py` line 884). -/
def configLines (d : PyDict) : List String :=
  match pyGet d "configure" with
  | some (.strList xs) => xs
  | _ => []

/-- Stand-in for Python `str(value)`; the produced text is stored as
message content and is opaque to every property proved below. -/
def pyValStr : PyVal → String
  | .str s => s
  | .strList xs => String.join xs
  | .int n => toString n

/-- Stand-in for Python `str(reply)` on a dict (content is opaque to
the proved properties). -/
def pyDictStr (d : PyDict) : String :=
  String.join (d.map fun kv => kv.1 ++ ":" ++ pyValStr kv.2)

/-- Message roles of the conversation store. -/
inductive Role where
  | developer
  | user
  | assistant
deriving DecidableEq, Repr

/-- One entry of `run_chat_loop_params["user_input"]`. -/
structure Msg where
  role : Role
  content : String
deriving DecidableEq, Repr

/-- The mutable state threaded through `run_chat_loop`, instrumented
with observation traces: `adds` records every `total_tokens +=`
event (lines 855 and 892) in order, `sent` every command string handed
to `send_device_command` by the LLM command path, `configCalls` every
`send_config_set` submission, `llmCalls` the number of
`query_llm_api` invocations. -/
structure ChatState where
  user_input : List Msg := []
  context_depth : Nat := 0
  total_tokens : Nat := 0
  prompt : String := ""
  adds : List Nat := []
  sent : List String := []
  configCalls : List (List String) := []
  llmCalls : Nat := 0
deriving DecidableEq, Repr

/-- `user_input.append(...)`. -/
def appendMsg (st : ChatState) (m : Msg) : ChatState :=
  { st with user_input := st.user_input ++ [m] }

/-- `total_tokens += n` (also recorded as an addition event). -/
def addTok (st : ChatState) (n : Nat) : ChatState :=
  { st with total_tokens := st.total_tokens + n, adds := st.adds ++ [n] }

/-- Conversation state at session start (`ixc.py` lines 779-797):
prompt loaded (device info already appended) and the store seeded with
the single developer message. -/
def seedState (prompt : String) : ChatState :=
  { prompt := prompt, user_input := [⟨Role.developer, prompt⟩] }

/-- The external device session, reduced to the response behaviour the
dispatch core consumes: `prompt` is `find_prompt()`, `read` maps the
raw text written on the channel to the buffered output read back after
the settle sleep, `sendCmd` is netmiko `send_command` (prompt and
command already stripped by the transport). -/
structure Conn where
  prompt : String
  read : String → String
  sendCmd : String → String

/-- Observable device interactions performed by `send_device_command`. -/
inductive DevAction where
  | writeChannel (s : String)
  | sendCommand (cmd : String) (expectStr : String)
deriving DecidableEq, Repr

/-- Closed form of Python `re.search(r".+\?$", command)` (`ixc.py`
line 412) applied to the reversed character list: `$` matches at the
end of the string or just before one final newline, `.` never matches
a newline, and `.+` demands at least one non-newline character
immediately before the final `?`. -/
def queryShape (l : List Char) : Bool :=
  match l with
  | c1 :: c2 :: rest =>
      if c1 = '\n' then
        if c2 = '?' then
          match rest with
          | c3 :: _ => decide (c3 ≠ '\n')
          | [] => false
        else false
      else if c1 = '?' then decide (c2 ≠ '\n')
      else false
  | _ => false

/-- Whether `send_device_command` routes `command` to the
completion-query path. -/
def isQueryCmd (command : String) : Bool :=
  queryShape command.data.reverse

/-- The cleanup applied to raw completion-query output (`ixc.py` lines
403-418): each string of `conn_read_replace_strings` is removed from
the buffered read, in order. -/
def cleanQueryResp (raw command device_prompt : String) : String :=
  [command, device_prompt, "% Incomplete command.",
    command.replace "?" "", "\n\n"].foldl
    (fun resp s => resp.replace s "") raw

/-- `send_device_command(conn, command)` (`ixc.py` lines 357-430):
returns the response text together with the device interaction
performed. -/
def send_device_command (conn : Conn) (command : String) :
    String × List DevAction :=
  let device_prompt := conn.prompt
  if isQueryCmd command then
    let resp := conn.read (command ++ "\n")
    (cleanQueryResp resp command device_prompt,
      [DevAction.writeChannel (command ++ "\n")])
  else
    (conn.sendCmd command,
      [DevAction.sendCommand command "[#>?:]\\s*$"])

/-- Closed form of the safety filter
`re.search(r"^co.+|^re.+|^de.+", re.IGNORECASE)` (`ixc.py` line 740):
the first two characters lower-case to `co`, `re` or `de`, and a third
character exists and is not a newline (`.+` needs one non-newline
character). -/
def forbiddenMatch (command : String) : Bool :=
  match command.data with
  | a :: b :: c :: _ =>
      ((a.toLower = 'c' ∧ b.toLower = 'o') ∨
        (a.toLower = 'r' ∧ b.toLower = 'e') ∨
        (a.toLower = 'd' ∧ b.toLower = 'e') : Bool)
      && decide (c ≠ '\n')
  | _ => false

/-- `process_llm_commands(conn, commands)` (`ixc.py` lines 695-749),
written as the equivalent right recursion of the accumulating loop:
the response text built by `command_resp +=`, paired with the list of
commands actually handed to `send_device_command`. -/
def process_llm_commands (conn : Conn) : List String → String × List String
  | [] => ("", [])
  | command :: rest =>
      let (restResp, restSent) := process_llm_commands conn rest
      if forbiddenMatch command then
        ("%%FORBIDDEN COMMAND: " ++ command ++ restResp, restSent)
      else
        ((send_device_command conn command).1 ++ restResp,
          command :: restSent)

/-- Python `"%%FORBIDDEN COMMAND" in command_resp` (`ixc.py` line
843): substring containment. -/
def sentinelPresent (command_resp : String) : Bool :=
  decide ("%%FORBIDDEN COMMAND".data <:+: command_resp.data)

/-- `confirm_config_change()` (`ixc.py` lines 193-200) run against a
finite script of operator answers; `none` models the recursion still
re-prompting when the script runs out (the function itself never
returns a default). -/
def confirm_config_change : List String → Option Bool
  | [] => none
  | answer :: rest =>
      if answer.data.map Char.toLower = "y".data then some true
      else if answer.data.map Char.toLower = "n".data then some false
      else confirm_config_change rest

/-- Outcome of `ast.literal_eval(response.output_text)` inside
`query_llm_api`. -/
inductive ParseOutcome where
  | parseError
  | parsed (d : PyDict)
deriving DecidableEq, Repr

/-- Outcome of one `client.responses.create` call: `failure` covers
`OpenAIError` and any other exception raised by the transport (all
caught by `ixc.py` lines 555-562), `success` carries the optional
usage report and the parse outcome of the reply text. -/
inductive ApiResult where
  | failure
  | success (usage : Option Nat) (out : ParseOutcome)
deriving DecidableEq, Repr

/-- `query_llm_api(api_params)` (`ixc.py` lines 494-564): the `(reply,
total_tokens)` pair.  Token usage is accumulated before parsing, and
every exception path (transport failure, `ValueError` / `SyntaxError`
from `ast.literal_eval`) falls through to `return {}, 0`. -/
def query_llm_api : ApiResult → PyDict × Nat
  | .failure => ([], 0)
  | .success usage out =>
      let total_tokens := match usage with | some n => n | none => 0
      match out with
      | .parseError => ([], 0)
      | .parsed reply => (reply, total_tokens)

/-- The conversation state after one non-breaking iteration of the
command loop that consumed a script entry with token count `t`
(`ixc.py` lines 836-855): assistant reply appended, batch executed and
its sent commands recorded, the batch result appended as a User
message, the re-query counted, and `t` added to the token total. -/
def stepState (conn : Conn) (reply : PyDict) (st : ChatState)
    (t : Nat) : ChatState :=
  let st1 := appendMsg st ⟨Role.assistant, pyDictStr reply⟩
  let st2 := { st1 with
    sent := st1.sent ++ (process_llm_commands conn (cmdList reply)).2 }
  let st3 := appendMsg st2
    ⟨Role.user, (process_llm_commands conn (cmdList reply)).1⟩
  let st4 := { st3 with llmCalls := st3.llmCalls + 1 }
  addTok st4 t

/-- The inner `while "command" in reply.keys()` loop of
`run_chat_loop` (`ixc.py` lines 835-859), driven by the script of
`query_llm_api` results still to be delivered.  Each iteration appends
the assistant reply, runs the safety-filtered executor over the batch,
breaks on the forbidden sentinel, otherwise feeds the result back and
re-queries (the per-iteration state effect is `stepState`); an
exhausted script behaves as a failed query (`({}, 0)`).  Returns the
final `(reply, token_count)` and the updated state. -/
def command_loop (conn : Conn) :
    List (PyDict × Nat) → PyDict → Nat → ChatState →
    PyDict × Nat × ChatState
  | script, reply, token_count, st =>
    if hasKey reply "command" then
      let st1 := appendMsg st ⟨Role.assistant, pyDictStr reply⟩
      let pr := process_llm_commands conn (cmdList reply)
      if sentinelPresent pr.1 then
        (reply, token_count, { st1 with sent := st1.sent ++ pr.2 })
      else
        match script with
        | [] => ([], 0, stepState conn reply st 0)
        | (r, t) :: rest =>
            if r.isEmpty then (r, t, stepState conn reply st t)
            else command_loop conn rest r t (stepState conn reply st t)
    else (reply, token_count, st)

/-- The token amounts the command loop adds to `total_tokens` (the
`+=` at `ixc.py` line 855), as a function of the current reply and the
remaining gateway script. -/
def loop_consumed (conn : Conn) :
    List (PyDict × Nat) → PyDict → List Nat
  | script, reply =>
    if hasKey reply "command" then
      if sentinelPresent (process_llm_commands conn (cmdList reply)).1 then []
      else
        match script with
        | [] => [0]
        | (r, t) :: rest =>
            if r.isEmpty then [t]
            else t :: loop_consumed conn rest r
    else []

/-- The two statements executed for a fresh operator query before the
first LLM call (`ixc.py` lines 818-825): append the User message and
increment the context depth. -/
def turn_begin (st : ChatState) (input_query : String) : ChatState :=
  { appendMsg st ⟨Role.user, input_query⟩ with
      context_depth := st.context_depth + 1 }

/-- One non-slash turn of `run_chat_loop` (`ixc.py` lines 816-892):
operator text appended, first LLM call taken from `script`, empty
reply aborts the turn, otherwise the command loop runs, then the
answer / configure / fall-through branches, with `total_tokens +=
token_count` at line 892 except where `continue` skips it.
`confirmScript` scripts the operator's `confirm_config_change`
answers. -/
def run_turn (conn : Conn) (confirmScript : List String)
    (input_query : String) (script : List (PyDict × Nat))
    (st : ChatState) : ChatState :=
  let st := turn_begin st input_query
  match script with
  | [] => st
  | (reply, token_count) :: rest =>
    let st := { st with llmCalls := st.llmCalls + 1 }
    if reply.isEmpty then st
    else
      let out := command_loop conn rest reply token_count st
      let reply := out.1
      let token_count := out.2.1
      let st := out.2.2
      if hasKey reply "answer" then
        let st := appendMsg st ⟨Role.assistant, pyDictStr reply⟩
        addTok st token_count
      else if hasKey reply "configure" then
        match confirm_config_change confirmScript with
        | some false => st
        | some true =>
            let st :=
              { st with configCalls := st.configCalls ++ [configLines reply] }
            addTok st token_count
        | none => st
      else
        addTok st token_count

/-- Exceptions that can surface inside the body of the `while True`
loop of `run_chat_loop`. -/
inductive TurnError where
  | openAIError
  | connectionException
  | socketError
  | otherError
deriving DecidableEq, Repr

/-- What the loop does after handling a turn-level exception:
continue with the next operator prompt, or terminate the process with
an exit code.  `logged` records that the handler reported the error. -/
inductive LoopDisposition where
  | continueLoop (logged : Bool)
  | exitProcess (code : Nat) (logged : Bool)
deriving DecidableEq, Repr

/-- The `except` clauses of `run_chat_loop` (`ixc.py` lines 894-903):
`OpenAIError` and unhandled exceptions are logged and the loop
continues; `ConnectionException` and `socket.error` are logged and
`sys.exit(1)` terminates the process. -/
def run_chat_loop_handler : TurnError → LoopDisposition
  | .openAIError => .continueLoop true
  | .connectionException => .exitProcess 1 true
  | .socketError => .exitProcess 1 true
  | .otherError => .continueLoop true

/-- The operations that mutate the conversation store, taken from the
code sites that touch `user_input` / `context_depth` /
`total_tokens`:  `operatorTurn` is lines 818-825, `assistantMsg` lines
836-838 and 863-865, `toolResult` lines 846-851, `tokensAdd` lines 855
and 892, `resetNew` the `/n` branch of `process_operator_commands`
(lines 614-622), `resetReload` the `/r` branch (lines 635-652, the new
prompt already carrying the appended device info). -/
inductive StoreOp where
  | operatorTurn (q : String)
  | assistantMsg (s : String)
  | toolResult (s : String)
  | tokensAdd (n : Nat)
  | resetNew
  | resetReload (newPrompt : String)
deriving DecidableEq, Repr

/-- Effect of one store operation on the conversation state. -/
def applyOp (st : ChatState) : StoreOp → ChatState
  | .operatorTurn q => turn_begin st q
  | .assistantMsg s => appendMsg st ⟨Role.assistant, s⟩
  | .toolResult s => appendMsg st ⟨Role.user, s⟩
  | .tokensAdd n => addTok st n
  | .resetNew =>
      { st with user_input := [⟨Role.developer, st.prompt⟩],
                context_depth := 0 }
  | .resetReload p =>
      { st with prompt := p, user_input := [⟨Role.developer, p⟩],
                context_depth := 0 }

/-- A whole history of store operations, applied in order. -/
def applyOps (st : ChatState) (ops : List StoreOp) : ChatState :=
  ops.foldl applyOp st

/-- `true` while no operator-initiated turn has been registered since
the last reset (or since seeding, when no reset occurred). -/
def noTurnStep (flag : Bool) : StoreOp → Bool
  | .operatorTurn _ => false
  | .resetNew => true
  | .resetReload _ => true
  | _ => flag

/-- Whether a history contains no operator turn after its last reset. -/
def noTurnSinceReset (ops : List StoreOp) : Bool :=
  ops.foldl noTurnStep true

/-- Concatenation of a list of strings in order (the effect of the
`command_resp +=` accumulation). -/
def strConcat : List String → String
  | [] => ""
  | s :: rest => s ++ strConcat rest

/-- Case-insensitive "begins with the verb `pre`" (with `pre` given in
lower case), the spec's notion of a command starting with a forbidden
verb. -/
def beginsWithCI (s pre : String) : Bool :=
  pre.data.isPrefixOf (s.data.map Char.toLower)

/-- A fixed demonstration device for concrete witnesses. -/
def demoConn : Conn :=
  ⟨"R1#", fun _ => "raw output", fun c => "out " ++ c⟩

/-- Inverting `List.map Char.toLower` on a three-deep cons shape. -/
theorem map_toLower_cons3 (l : List Char) (c1 c2 c3 : Char) (t : List Char)
    (h : l.map Char.toLower = c1 :: c2 :: c3 :: t) :
    ∃ a b c r, l = a :: b :: c :: r ∧ a.toLower = c1 ∧
      b.toLower = c2 ∧ c.toLower = c3 := by
  match l, h with
  | a :: b :: c :: r, h =>
    simp only [List.map_cons, List.cons.injEq] at h
    exact ⟨a, b, c, r, rfl, h.1, h.2.1, h.2.2.1⟩

/-- Inverting `List.map Char.toLower` on a two-deep cons shape. -/
theorem map_toLower_cons2 (l : List Char) (c1 c2 : Char) (t : List Char)
    (h : l.map Char.toLower = c1 :: c2 :: t) :
    ∃ a b r, l = a :: b :: r ∧ a.toLower = c1 ∧ b.toLower = c2 := by
  match l, h with
  | a :: b :: r, h =>
    simp only [List.map_cons, List.cons.injEq] at h
    exact ⟨a, b, r, rfl, h.1, h.2.1⟩

/-- `beginsWithCI s pre` exposes the lowered characters of `s`. -/
theorem beginsWithCI_eq (s pre : String) (h : beginsWithCI s pre = true) :
    ∃ t, s.data.map Char.toLower = pre.data ++ t := by
  unfold beginsWithCI at h
  rw [List.isPrefixOf_iff_prefix] at h
  obtain ⟨t, ht⟩ := h
  exact ⟨t, ht.symm⟩

/-- C1 counterexample: in the batch `["reload", "show clock"]` the
first command is forbidden, yet the executor still sends the later
command `"show clock"` to the device — the batch is not truncated at
the first rejection. -/
theorem C1_counterexample :
    forbiddenMatch "reload" = true ∧
    (process_llm_commands demoConn ["reload", "show clock"]).2 =
      ["show clock"] := by
  constructor
  · decide
  · decide

/-- C1 (amended): when the Safety Filter rejects a command the
executor substitutes the rejection sentinel for that command but keeps
advancing through the remaining commands of the batch: every
non-forbidden command of the batch is executed, and the returned text
is the in-order concatenation of device responses and rejection
sentinels. -/
theorem C1_batch_continues (conn : Conn) (cmds : List String) :
    (process_llm_commands conn cmds).2 =
      cmds.filter (fun c => !forbiddenMatch c) ∧
    (process_llm_commands conn cmds).1 =
      strConcat (cmds.map fun c =>
        if forbiddenMatch c then "%%FORBIDDEN COMMAND: " ++ c
        else (send_device_command conn c).1) := by
  induction cmds with
  | nil => exact ⟨rfl, rfl⟩
  | cons command rest ih =>
    by_cases hf : forbiddenMatch command
    · simp [process_llm_commands, hf, strConcat, ih.1, ih.2,
        String.append_assoc]
    · simp [process_llm_commands, hf, strConcat, ih.1, ih.2]

/-- C2 counterexample: `"erase startup-config"` begins with the
forbidden verb `erase`, yet the `forbidden` regex of
`process_llm_commands` does not classify it as forbidden (the pattern
covers only the `co` / `re` / `de` prefixes). -/
theorem C2_counterexample :
    beginsWithCI "erase startup-config" "erase" = true ∧
    forbiddenMatch "erase startup-config" = false := by
  constructor
  · decide
  · decide

/-- C2 (amended): every command beginning (case-insensitively) with
copy, reload, debug or delete is classified forbidden; commands
beginning with erase are not matched by the filter, and commands
beginning with show are classified permitted. -/
theorem C2_forbidden_verbs (s : String) :
    (beginsWithCI s "copy" = true → forbiddenMatch s = true) ∧
    (beginsWithCI s "reload" = true → forbiddenMatch s = true) ∧
    (beginsWithCI s "debug" = true → forbiddenMatch s = true) ∧
    (beginsWithCI s "delete" = true → forbiddenMatch s = true) ∧
    (beginsWithCI s "erase" = true → forbiddenMatch s = false) ∧
    (beginsWithCI s "show" = true → forbiddenMatch s = false) := by
  refine ⟨?_, ?_, ?_, ?_, ?_, ?_⟩ <;> intro h <;>
    obtain ⟨t, ht⟩ := beginsWithCI_eq _ _ h
  · obtain ⟨a, b, c, r, hl, ha, hb, hc⟩ :=
      map_toLower_cons3 _ _ _ _ _ ht
    have hcn : c ≠ '\n' := fun he => by rw [he] at hc; exact absurd hc (by decide)
    simp [forbiddenMatch, hl, ha, hb, hcn]
  · obtain ⟨a, b, c, r, hl, ha, hb, hc⟩ :=
      map_toLower_cons3 _ _ _ _ _ ht
    have hcn : c ≠ '\n' := fun he => by rw [he] at hc; exact absurd hc (by decide)
    simp [forbiddenMatch, hl, ha, hb, hcn]
  · obtain ⟨a, b, c, r, hl, ha, hb, hc⟩ :=
      map_toLower_cons3 _ _ _ _ _ ht
    have hcn : c ≠ '\n' := fun he => by rw [he] at hc; exact absurd hc (by decide)
    simp [forbiddenMatch, hl, ha, hb, hcn]
  · obtain ⟨a, b, c, r, hl, ha, hb, hc⟩ :=
      map_toLower_cons3 _ _ _ _ _ ht
    have hcn : c ≠ '\n' := fun he => by rw [he] at hc; exact absurd hc (by decide)
    simp [forbiddenMatch, hl, ha, hb, hcn]
  · obtain ⟨a, b, r, hl, ha, hb⟩ := map_toLower_cons2 _ _ _ _ ht
    have ha2 : a.toLower ≠ 'c' ∧ a.toLower ≠ 'r' ∧ a.toLower ≠ 'd' := by
      rw [ha]; exact ⟨by decide, by decide, by decide⟩
    cases r with
    | nil => simp [forbiddenMatch, hl]
    | cons c r2 => simp [forbiddenMatch, hl, ha2.1, ha2.2.1, ha2.2.2]
  · obtain ⟨a, b, r, hl, ha, hb⟩ := map_toLower_cons2 _ _ _ _ ht
    have ha2 : a.toLower ≠ 'c' ∧ a.toLower ≠ 'r' ∧ a.toLower ≠ 'd' := by
      rw [ha]; exact ⟨by decide, by decide, by decide⟩
    cases r with
    | nil => simp [forbiddenMatch, hl]
    | cons c r2 => simp [forbiddenMatch, hl, ha2.1, ha2.2.1, ha2.2.2]

/-- C2 witness: the amended theorem applied at concrete commands. -/
theorem C2_witness :
    beginsWithCI "Copy run start" "copy" = true ∧
    forbiddenMatch "Copy run start" = true ∧
    forbiddenMatch "show version" = false :=
  ⟨by decide, (C2_forbidden_verbs "Copy run start").1 (by decide),
    (C2_forbidden_verbs "show version").2.2.2.2.2 (by decide)⟩

/-- Every command the executor actually sends to the device is one the
filter classified as permitted. -/
theorem sent_not_forbidden (conn : Conn) (cmds : List String) :
    ∀ c ∈ (process_llm_commands conn cmds).2, forbiddenMatch c = false := by
  induction cmds with
  | nil => intro c hc; simp [process_llm_commands] at hc
  | cons command rest ih =>
    intro c hc
    by_cases hf : forbiddenMatch command
    · simp only [process_llm_commands, hf, if_pos] at hc
      exact ih c hc
    · simp only [process_llm_commands, hf, if_neg, Bool.false_eq_true,
        not_false_iff, List.mem_cons] at hc
      rcases hc with rfl | hc
      · exact Bool.eq_false_iff.mpr hf
      · exact ih c hc

/-- If a batch contains a forbidden command, the executor's response
text contains the rejection sentinel carrying that literal command. -/
theorem sentinel_infix_of_forbidden (conn : Conn) (cmds : List String)
    (c : String) (hc : c ∈ cmds) (hf : forbiddenMatch c = true) :
    ("%%FORBIDDEN COMMAND: " ++ c).data <:+:
      (process_llm_commands conn cmds).1.data := by
  induction cmds with
  | nil => cases hc
  | cons command rest ih =>
    rcases List.mem_cons.mp hc with rfl | hmem
    · have hrw : (process_llm_commands conn (c :: rest)).1 =
          ("%%FORBIDDEN COMMAND: " ++ c) ++
            (process_llm_commands conn rest).1 := by
        simp [process_llm_commands, hf]
      rw [hrw, String.data_append]
      exact (List.prefix_append _ _).isInfix
    · by_cases hfh : forbiddenMatch command
      · have hrw : (process_llm_commands conn (command :: rest)).1 =
            ("%%FORBIDDEN COMMAND: " ++ command) ++
              (process_llm_commands conn rest).1 := by
          simp [process_llm_commands, hfh]
        rw [hrw, String.data_append]
        exact (ih hmem).trans (List.suffix_append _ _).isInfix
      · have hrw : (process_llm_commands conn (command :: rest)).1 =
            (send_device_command conn command).1 ++
              (process_llm_commands conn rest).1 := by
          simp [process_llm_commands, hfh]
        rw [hrw, String.data_append]
        exact (ih hmem).trans (List.suffix_append _ _).isInfix

/-- A forbidden command in the batch makes the dispatch loop's
substring test (`"%%FORBIDDEN COMMAND" in command_resp`) succeed. -/
theorem sentinelPresent_of_forbidden (conn : Conn) (cmds : List String)
    (c : String) (hc : c ∈ cmds) (hf : forbiddenMatch c = true) :
    sentinelPresent (process_llm_commands conn cmds).1 = true := by
  have h2 := sentinel_infix_of_forbidden conn cmds c hc hf
  have h1 : "%%FORBIDDEN COMMAND".data <+:
      ("%%FORBIDDEN COMMAND: " ++ c).data := by
    rw [String.data_append]
    exact List.IsPrefix.trans (by decide) (List.prefix_append _ _)
  exact decide_eq_true (List.IsPrefix.isInfix h1 |>.trans h2)

/-- C3: whenever an LLM `Command` reply contains a command matched by
the safety filter, that command is never sent to the device, the
response text contains the rejection sentinel with the literal command
string, and the command loop of the dispatch state machine exits at
that batch without re-querying the LLM, for every continuation script
of the gateway. -/
theorem C3_forbidden_stops_loop (conn : Conn) (reply : PyDict)
    (c : String) (script : List (PyDict × Nat)) (tc : Nat)
    (st : ChatState) (hk : hasKey reply "command" = true)
    (hc : c ∈ cmdList reply) (hf : forbiddenMatch c = true) :
    c ∉ (process_llm_commands conn (cmdList reply)).2 ∧
    ("%%FORBIDDEN COMMAND: " ++ c).data <:+:
      (process_llm_commands conn (cmdList reply)).1.data ∧
    ∃ st2, command_loop conn script reply tc st = (reply, tc, st2) ∧
      st2.llmCalls = st.llmCalls ∧
      st2.sent = st.sent ++ (process_llm_commands conn (cmdList reply)).2 := by
  have hnot : c ∉ (process_llm_commands conn (cmdList reply)).2 := by
    intro hmem
    have := sent_not_forbidden conn (cmdList reply) c hmem
    rw [hf] at this; exact absurd this (by decide)
  have hsent := sentinelPresent_of_forbidden conn (cmdList reply) c hc hf
  refine ⟨hnot, sentinel_infix_of_forbidden conn (cmdList reply) c hc hf,
    ?_⟩
  have heq : command_loop conn script reply tc st =
      (reply, tc,
        { st with
          user_input :=
            st.user_input ++ [⟨Role.assistant, pyDictStr reply⟩],
          sent := st.sent ++
            (process_llm_commands conn (cmdList reply)).2 }) := by
    unfold command_loop
    simp [hk, hsent, appendMsg]
  exact ⟨_, heq, rfl, rfl⟩

/-- Demonstration `Command` reply whose batch carries a forbidden
command after a permitted one. -/
def demoCmdBatch : PyDict :=
  [("command", PyVal.strList ["show clock", "reload"])]

/-- Demonstration continuation script for the gateway. -/
def demoScript : List (PyDict × Nat) :=
  [([("answer", PyVal.str "done")], 3)]

/-- C3 witness: the theorem applied to a concrete batch containing
`"reload"`. -/
theorem C3_witness :
    hasKey demoCmdBatch "command" = true ∧
    "reload" ∈ cmdList demoCmdBatch ∧
    forbiddenMatch "reload" = true ∧
    ("reload" ∉ (process_llm_commands demoConn (cmdList demoCmdBatch)).2 ∧
      ("%%FORBIDDEN COMMAND: " ++ "reload").data <:+:
        (process_llm_commands demoConn (cmdList demoCmdBatch)).1.data ∧
      ∃ st2, command_loop demoConn demoScript demoCmdBatch 5
          (seedState "p") = (demoCmdBatch, 5, st2) ∧
        st2.llmCalls = (seedState "p").llmCalls ∧
        st2.sent = (seedState "p").sent ++
          (process_llm_commands demoConn (cmdList demoCmdBatch)).2) :=
  ⟨by decide, by decide, by decide,
    C3_forbidden_stops_loop demoConn demoCmdBatch "reload" demoScript 5
      (seedState "p") (by decide) (by decide) (by decide)⟩

/-- A structurally valid reply carrying none of the three contract
keys. -/
def demoFooReply : PyDict := [("foo", PyVal.int 1)]

/-- C4 counterexample: a reply that parses to a dict with none of the
keys `answer` / `command` / `configure` is not mapped to the
empty-reply sentinel: `query_llm_api` returns the dict together with
its token count. -/
theorem C4_counterexample :
    hasKey demoFooReply "answer" = false ∧
    hasKey demoFooReply "command" = false ∧
    hasKey demoFooReply "configure" = false ∧
    query_llm_api (ApiResult.success (some 5)
      (ParseOutcome.parsed demoFooReply)) = (demoFooReply, 5) ∧
    (demoFooReply, 5) ≠ (([] : PyDict), 0) := by
  refine ⟨by decide, by decide, by decide, rfl, by decide⟩

/-- C4 (amended): transport failures and parse failures yield the
empty-reply sentinel `({}, 0)`, and on that sentinel the dispatch
machine abandons the turn (state unchanged beyond the appended
operator message, depth increment and the attempted call).  A reply
that parses to a dict with none of the three keys, however, is
returned as-is with its token count, and the dispatch machine falls
through every branch, adding the tokens and returning to the operator
prompt without processing the reply. -/
theorem C4_malformed_reply :
    query_llm_api ApiResult.failure = ([], 0) ∧
    (∀ u, query_llm_api (ApiResult.success u ParseOutcome.parseError) =
      ([], 0)) ∧
    (∀ conn cs q rest st,
      run_turn conn cs q ((([] : PyDict), 0) :: rest) st =
        { turn_begin st q with
            llmCalls := (turn_begin st q).llmCalls + 1 }) ∧
    (∀ conn cs q rest st d t, hasKey d "answer" = false →
      hasKey d "command" = false → hasKey d "configure" = false →
      d ≠ [] →
      query_llm_api (ApiResult.success (some t) (ParseOutcome.parsed d)) =
        (d, t) ∧
      run_turn conn cs q ((d, t) :: rest) st =
        addTok { turn_begin st q with
            llmCalls := (turn_begin st q).llmCalls + 1 } t) := by
  refine ⟨rfl, fun u => rfl, ?_, ?_⟩
  · intro conn cs q rest st
    simp [run_turn]
  · intro conn cs q rest st d t h1 h2 h3 h4
    have hne : d.isEmpty = false := by
      cases d with
      | nil => exact absurd rfl h4
      | cons x xs => rfl
    refine ⟨rfl, ?_⟩
    unfold run_turn command_loop
    simp [hne, h1, h2, h3]

/-- C4 witness: the amended theorem applied to a concrete
none-of-the-three-keys reply. -/
theorem C4_witness :
    hasKey demoFooReply "answer" = false ∧
    run_turn demoConn [] "hello" [(demoFooReply, 5)] (seedState "p") =
      addTok { turn_begin (seedState "p") "hello" with
          llmCalls := (turn_begin (seedState "p") "hello").llmCalls + 1 }
        5 :=
  ⟨by decide,
    (C4_malformed_reply.2.2.2 demoConn [] "hello" [] (seedState "p")
      demoFooReply 5 (by decide) (by decide) (by decide)
      (by decide)).2⟩

/-- The induction invariant behind the store properties: the head of
the message log is the developer message, the depth is zero exactly
while the no-turn flag is set, and a one-message log forces the
flag. -/
def storeInv (st : ChatState) (flag : Bool) : Prop :=
  (∃ c rest, st.user_input = ⟨Role.developer, c⟩ :: rest) ∧
  (st.context_depth = 0 ↔ flag = true) ∧
  (st.user_input.length = 1 → flag = true)

/-- One store operation preserves the invariant. -/
theorem storeInv_applyOp (st : ChatState) (flag : Bool) (op : StoreOp)
    (h : storeInv st flag) :
    storeInv (applyOp st op) (noTurnStep flag op) := by
  obtain ⟨⟨c, rest, hhead⟩, hdepth, hlen⟩ := h
  cases op with
  | operatorTurn q =>
    refine ⟨⟨c, rest ++ [⟨Role.user, q⟩], ?_⟩, ?_, ?_⟩
    · simp [applyOp, turn_begin, appendMsg, hhead]
    · simp [applyOp, turn_begin, noTurnStep]
    · intro hl
      simp [applyOp, turn_begin, appendMsg, hhead] at hl
  | assistantMsg s =>
    refine ⟨⟨c, rest ++ [⟨Role.assistant, s⟩], ?_⟩, ?_, ?_⟩
    · simp [applyOp, appendMsg, hhead]
    · simpa [applyOp, appendMsg] using hdepth
    · intro hl
      simp [applyOp, appendMsg, hhead] at hl
  | toolResult s =>
    refine ⟨⟨c, rest ++ [⟨Role.user, s⟩], ?_⟩, ?_, ?_⟩
    · simp [applyOp, appendMsg, hhead]
    · simpa [applyOp, appendMsg] using hdepth
    · intro hl
      simp [applyOp, appendMsg, hhead] at hl
  | tokensAdd n =>
    exact ⟨⟨c, rest, hhead⟩, by simpa [applyOp, addTok] using hdepth,
      by simpa [applyOp, addTok] using hlen⟩
  | resetNew =>
    exact ⟨⟨st.prompt, [], rfl⟩, by simp [applyOp, noTurnStep],
      fun _ => rfl⟩
  | resetReload p =>
    exact ⟨⟨p, [], rfl⟩, by simp [applyOp, noTurnStep], fun _ => rfl⟩

/-- The invariant carried through a whole operation history. -/
theorem storeInv_applyOps (ops : List StoreOp) (st : ChatState)
    (flag : Bool) (h : storeInv st flag) :
    storeInv (applyOps st ops) (ops.foldl noTurnStep flag) := by
  induction ops generalizing st flag with
  | nil => exact h
  | cons op rest ih =>
    exact ih (applyOp st op) (noTurnStep flag op)
      (storeInv_applyOp st flag op h)

/-- C5: after any sequence of store operations starting from the
seeded context, the first message is always the developer message, and
the depth is zero exactly when the store holds only the developer
message or no operator turn has been registered since the last
reset. -/
theorem C5_store_invariant (prompt : String) (ops : List StoreOp) :
    (∃ c rest, (applyOps (seedState prompt) ops).user_input =
      ⟨Role.developer, c⟩ :: rest) ∧
    ((applyOps (seedState prompt) ops).context_depth = 0 ↔
      ((applyOps (seedState prompt) ops).user_input.length = 1 ∨
        noTurnSinceReset ops = true)) := by
  have h := storeInv_applyOps ops (seedState prompt) true
    ⟨⟨prompt, [], rfl⟩, by simp [seedState], fun _ => rfl⟩
  obtain ⟨hhead, hdepth, hlen⟩ := h
  refine ⟨hhead, ?_, ?_⟩
  · intro h0
    exact Or.inr (hdepth.mp h0)
  · rintro (hl | hf)
    · exact hdepth.mpr (hlen hl)
    · exact hdepth.mpr hf

/-- A single store operation never decreases `total_tokens`. -/
theorem applyOp_tokens_mono (st : ChatState) (op : StoreOp) :
    st.total_tokens ≤ (applyOp st op).total_tokens := by
  cases op <;> simp [applyOp, turn_begin, appendMsg, addTok]

/-- A history of store operations never decreases `total_tokens`. -/
theorem applyOps_tokens_mono (st : ChatState) (ops : List StoreOp) :
    st.total_tokens ≤ (applyOps st ops).total_tokens := by
  induction ops generalizing st with
  | nil => exact Nat.le_refl _
  | cons op rest ih =>
    exact Nat.le_trans (applyOp_tokens_mono st op) (ih (applyOp st op))

/-- The command loop never decreases `total_tokens`. -/
theorem command_loop_tokens_mono (conn : Conn)
    (script : List (PyDict × Nat)) (reply : PyDict) (tc : Nat)
    (st : ChatState) :
    st.total_tokens ≤ (command_loop conn script reply tc st).2.2.total_tokens := by
  have hstep : ∀ reply st t,
      st.total_tokens ≤ (stepState conn reply st t).total_tokens := by
    intro reply st t
    simp [stepState, appendMsg, addTok]
  induction script generalizing reply tc st with
  | nil =>
    unfold command_loop
    by_cases hk : hasKey reply "command"
    · simp only [hk, if_pos]
      split
      · simp [appendMsg]
      · exact hstep reply st 0
    · simp [hk]
  | cons head rest ih =>
    unfold command_loop
    by_cases hk : hasKey reply "command"
    · simp only [hk, if_pos]
      split
      · simp [appendMsg]
      · split
        · exact hstep reply st head.2
        · exact Nat.le_trans (hstep reply st head.2) (ih _ _ _)
    · simp [hk]

/-- One dispatched turn never decreases `total_tokens`. -/
theorem run_turn_tokens_mono (conn : Conn) (cs : List String)
    (q : String) (script : List (PyDict × Nat)) (st : ChatState) :
    st.total_tokens ≤ (run_turn conn cs q script st).total_tokens := by
  unfold run_turn
  cases script with
  | nil => simp [turn_begin, appendMsg]
  | cons head rest =>
    by_cases he : head.1.isEmpty
    · simp [he, turn_begin, appendMsg]
    · have hloop := command_loop_tokens_mono conn rest head.1 head.2
        { turn_begin st q with
            llmCalls := (turn_begin st q).llmCalls + 1 }
      have hbase :
          st.total_tokens ≤
            ({ turn_begin st q with
                llmCalls := (turn_begin st q).llmCalls + 1 }).total_tokens := by
        simp [turn_begin, appendMsg]
      have h1 := Nat.le_trans hbase hloop
      simp only [he, Bool.false_eq_true, if_neg, not_false_iff]
      split
      · exact Nat.le_trans h1 (by simp [appendMsg, addTok])
      · split
        · split
          · exact h1
          · exact Nat.le_trans h1 (by simp [addTok])
          · exact h1
        · exact Nat.le_trans h1 (by simp [addTok])

/-- C9: `total_tokens` is monotonically non-decreasing — across any
history of store operations and across any dispatched turn — and a
context reset (`/n` or `/r`) replaces the message sequence with the
single developer message and zeroes the depth while leaving
`total_tokens` untouched. -/
theorem C9_tokens_monotone :
    (∀ st ops, st.total_tokens ≤ (applyOps st ops).total_tokens) ∧
    (∀ conn cs q script st,
      st.total_tokens ≤ (run_turn conn cs q script st).total_tokens) ∧
    (∀ st, (applyOp st StoreOp.resetNew).user_input =
        [⟨Role.developer, st.prompt⟩] ∧
      (applyOp st StoreOp.resetNew).context_depth = 0 ∧
      (applyOp st StoreOp.resetNew).total_tokens = st.total_tokens) ∧
    (∀ st p, (applyOp st (StoreOp.resetReload p)).user_input =
        [⟨Role.developer, p⟩] ∧
      (applyOp st (StoreOp.resetReload p)).context_depth = 0 ∧
      (applyOp st (StoreOp.resetReload p)).total_tokens =
        st.total_tokens) := by
  refine ⟨fun st ops => applyOps_tokens_mono st ops,
    fun conn cs q script st => run_turn_tokens_mono conn cs q script st,
    fun st => ⟨rfl, rfl, rfl⟩, fun st p => ⟨rfl, rfl, rfl⟩⟩

/-- A demonstration `Configure` reply. -/
def demoConfReply : PyDict :=
  [("configure", PyVal.strList ["no ip domain lookup"])]

/-- C7: the confirmation prompt re-asks on any answer other than a
case-insensitive `y` or `n` and never defaults, and for a turn whose
reply is a `Configure` reply the device configure operation is
invoked exactly when the operator answers yes; when the answer is no,
the device is not contacted at all for the turn. -/
theorem C7_confirm_gate :
    (∀ x xs, x.data.map Char.toLower ≠ "y".data →
      x.data.map Char.toLower ≠ "n".data →
      confirm_config_change (x :: xs) = confirm_config_change xs) ∧
    (∀ x xs, x.data.map Char.toLower = "y".data →
      confirm_config_change (x :: xs) = some true) ∧
    (∀ x xs, x.data.map Char.toLower = "n".data →
      confirm_config_change (x :: xs) = some false) ∧
    (∀ conn cs q r t rest st, hasKey r "configure" = true →
      hasKey r "command" = false → hasKey r "answer" = false →
      ((run_turn conn cs q ((r, t) :: rest) st).configCalls =
        st.configCalls ++
          (if confirm_config_change cs = some true
            then [configLines r] else [])) ∧
      (confirm_config_change cs = some false →
        (run_turn conn cs q ((r, t) :: rest) st).sent = st.sent ∧
        (run_turn conn cs q ((r, t) :: rest) st).configCalls =
          st.configCalls)) := by
  refine ⟨?_, ?_, ?_, ?_⟩
  · intro x xs h1 h2
    simp [confirm_config_change, h1, h2]
  · intro x xs h1
    simp [confirm_config_change, h1]
  · intro x xs h1
    simp [confirm_config_change, h1]
  · intro conn cs q r t rest st hc hcmd hans
    have hne : r.isEmpty = false := by
      cases r with
      | nil => simp [hasKey, pyGet] at hc
      | cons x xs => rfl
    have hrun : run_turn conn cs q ((r, t) :: rest) st =
        (match confirm_config_change cs with
          | some false =>
              { turn_begin st q with
                  llmCalls := (turn_begin st q).llmCalls + 1 }
          | some true =>
              addTok
                { turn_begin st q with
                    llmCalls := (turn_begin st q).llmCalls + 1,
                    configCalls :=
                      ({ turn_begin st q with
                          llmCalls :=
                            (turn_begin st q).llmCalls +
                              1 }).configCalls ++ [configLines r] } t
          | none =>
              { turn_begin st q with
                  llmCalls := (turn_begin st q).llmCalls + 1 }) := by
      unfold run_turn command_loop
      simp [hne, hc, hcmd, hans]
    constructor
    · rcases hcc : confirm_config_change cs with _ | b
      · simp [hrun, hcc, turn_begin, appendMsg]
      · cases b <;> simp [hrun, hcc, turn_begin, appendMsg, addTok]
    · intro hcc
      simp [hrun, hcc, turn_begin, appendMsg]

/-- C7 witness: the theorem applied to a concrete declined
configuration change. -/
theorem C7_witness :
    confirm_config_change ["maybe", "N"] = some false ∧
    (run_turn demoConn ["maybe", "N"] "set it" [(demoConfReply, 4)]
        (seedState "p")).configCalls = [] ∧
    (run_turn demoConn ["maybe", "N"] "set it" [(demoConfReply, 4)]
        (seedState "p")).sent = [] :=
  ⟨by decide,
    ((C7_confirm_gate.2.2.2 demoConn ["maybe", "N"] "set it"
        demoConfReply 4 [] (seedState "p") (by decide) (by decide)
        (by decide)).2 (by decide)).2,
    ((C7_confirm_gate.2.2.2 demoConn ["maybe", "N"] "set it"
        demoConfReply 4 [] (seedState "p") (by decide) (by decide)
        (by decide)).2 (by decide)).1⟩

/-- C6 counterexample: the command string `"?"` ends in `?`, yet
`send_device_command` routes it to the standard `send_command` path
(the pattern `.+\?$` requires a character before the `?`). -/
theorem C6_counterexample :
    "?".data.getLast? = some '?' ∧
    isQueryCmd "?" = false ∧
    send_device_command demoConn "?" =
      (demoConn.sendCmd "?", [DevAction.sendCommand "?" "[#>?:]\\s*$"]) := by
  refine ⟨by decide, by decide, rfl⟩

/-- C6 (amended): a command whose text ends in `?` preceded by at
least one non-newline character is routed to the completion-query
path: written raw to the channel with a newline and answered from the
buffered read with the echoed command, device prompt and
incomplete-command banner stripped; a command that ends neither in `?`
nor in `?` followed by one final newline is routed to the standard
path through `send_command` with the `[#>?:]\s*$` expect pattern. -/
theorem C6_routing (conn : Conn) (cmd : String) :
    ((∃ l c, cmd.data = l ++ [c, '?'] ∧ c ≠ '\n') →
      send_device_command conn cmd =
        (cleanQueryResp (conn.read (cmd ++ "\n")) cmd conn.prompt,
          [DevAction.writeChannel (cmd ++ "\n")])) ∧
    ((∀ l, cmd.data ≠ l ++ ['?']) → (∀ l, cmd.data ≠ l ++ ['?', '\n']) →
      send_device_command conn cmd =
        (conn.sendCmd cmd,
          [DevAction.sendCommand cmd "[#>?:]\\s*$"])) := by
  constructor
  · rintro ⟨l, c, hd, hc⟩
    have hq : isQueryCmd cmd = true := by
      unfold isQueryCmd
      rw [hd]
      simp [queryShape, List.reverse_append, hc]
    simp [send_device_command, hq]
  · intro h1 h2
    have hq : isQueryCmd cmd = false := by
      by_contra hq
      rw [Bool.not_eq_false] at hq
      unfold isQueryCmd at hq
      rcases hrev : cmd.data.reverse with _ | ⟨c1, tail⟩
      · rw [hrev] at hq; simp [queryShape] at hq
      · rcases tail with _ | ⟨c2, rest2⟩
        · rw [hrev] at hq; simp [queryShape] at hq
        · rw [hrev] at hq
          have hdata : cmd.data = (c1 :: c2 :: rest2).reverse := by
            rw [← hrev, List.reverse_reverse]
          by_cases hc1 : c1 = '\n'
          · subst hc1
            by_cases hc2 : c2 = '?'
            · subst hc2
              exact h2 rest2.reverse
                (by simp [hdata, List.append_assoc])
            · simp [queryShape, hc2] at hq
          · by_cases hc1q : c1 = '?'
            · subst hc1q
              exact h1 (c2 :: rest2).reverse (by simp [hdata])
            · simp [queryShape, hc1, hc1q] at hq
    simp [send_device_command, hq]

/-- C6 witness: the amended theorem applied to a concrete completion
query. -/
theorem C6_witness :
    (∃ l c, "show ip int brief?".data = l ++ [c, '?'] ∧ c ≠ '\n') ∧
    send_device_command demoConn "show ip int brief?" =
      (cleanQueryResp (demoConn.read ("show ip int brief?" ++ "\n"))
        "show ip int brief?" demoConn.prompt,
        [DevAction.writeChannel ("show ip int brief?" ++ "\n")]) :=
  ⟨⟨"show ip int brie".data, 'f', by decide, by decide⟩,
    (C6_routing demoConn "show ip int brief?").1
      ⟨"show ip int brie".data, 'f', by decide, by decide⟩⟩



/-- Unfolding of the command loop over one consumed, non-breaking
script entry. -/
theorem command_loop_cons_step (conn : Conn) (head : PyDict × Nat)
    (rest : List (PyDict × Nat)) (reply : PyDict) (tc : Nat)
    (st : ChatState) (hk : hasKey reply "command" = true)
    (hs : sentinelPresent (process_llm_commands conn (cmdList reply)).1 =
      false) (he : head.1.isEmpty = false) :
    command_loop conn (head :: rest) reply tc st =
      command_loop conn rest head.1 head.2
        (stepState conn reply st head.2) := by
  conv_lhs => rw [command_loop.eq_def]
  simp [hk, hs, he]

/-- Unfolding of `loop_consumed` over one consumed, non-breaking
script entry. -/
theorem loop_consumed_cons (conn : Conn) (head : PyDict × Nat)
    (rest : List (PyDict × Nat)) (reply : PyDict)
    (hk : hasKey reply "command" = true)
    (hs : sentinelPresent (process_llm_commands conn (cmdList reply)).1 =
      false) (he : head.1.isEmpty = false) :
    loop_consumed conn (head :: rest) reply =
      head.2 :: loop_consumed conn rest head.1 := by
  conv_lhs => rw [loop_consumed.eq_def]
  simp [hk, hs, he]

/-- The addition trace of `stepState`. -/
theorem stepState_adds (conn : Conn) (reply : PyDict) (st : ChatState)
    (t : Nat) : (stepState conn reply st t).adds = st.adds ++ [t] := by
  simp [stepState, appendMsg, addTok]

/-- The command loop's token additions are exactly `loop_consumed`;
when nothing was consumed the loop left reply and count untouched, and
otherwise the final `token_count` is the last consumed amount. -/
theorem command_loop_spec (conn : Conn) (script : List (PyDict × Nat))
    (reply : PyDict) (tc : Nat) (st : ChatState) :
    (command_loop conn script reply tc st).2.2.adds =
      st.adds ++ loop_consumed conn script reply ∧
    (loop_consumed conn script reply = [] →
      (command_loop conn script reply tc st).1 = reply ∧
      (command_loop conn script reply tc st).2.1 = tc) ∧
    (loop_consumed conn script reply ≠ [] →
      (loop_consumed conn script reply).getLast? =
        some (command_loop conn script reply tc st).2.1) := by
  induction script generalizing reply tc st with
  | nil =>
    unfold command_loop loop_consumed
    by_cases hk : hasKey reply "command"
    · by_cases hs :
        sentinelPresent (process_llm_commands conn (cmdList reply)).1
      · simp [hk, hs, appendMsg]
      · simp [hk, hs, stepState_adds]
    · simp [hk]
  | cons head rest ih =>
    by_cases hk : hasKey reply "command"
    · by_cases hs :
        sentinelPresent (process_llm_commands conn (cmdList reply)).1
      · unfold command_loop loop_consumed
        simp [hk, hs, appendMsg]
      · have hs2 :
          sentinelPresent (process_llm_commands conn (cmdList reply)).1 =
            false := by simpa using hs
        by_cases he : head.1.isEmpty
        · unfold command_loop loop_consumed
          simp [hk, hs, he, stepState_adds]
        · have he2 : head.1.isEmpty = false := by simpa using he
          rw [command_loop_cons_step conn head rest reply tc st hk hs2 he2,
            loop_consumed_cons conn head rest reply hk hs2 he2]
          obtain ⟨ih1, ih2, ih3⟩ :=
            ih head.1 head.2 (stepState conn reply st head.2)
          refine ⟨?_, ?_, ?_⟩
          · rw [ih1, stepState_adds]
            simp [List.append_assoc]
          · intro hL
            simp at hL
          · intro hL
            rcases hcons : loop_consumed conn rest head.1 with _ | ⟨a, L2⟩
            · rw [hcons] at ih2
              simp [(ih2 rfl).2]
            · rw [hcons] at ih3
              have h3 := ih3 (by simp)
              simp only [List.getLast?_cons_cons]
              simpa using h3
    · unfold command_loop loop_consumed
      simp [hk]

/-- C10 (amended): in every turn whose first LLM reply is a `Command`
reply whose batch passes the safety filter (so the loop re-queries at
least once), the token additions of the turn are exactly the counts of
the loop's re-queries — the first call's count `t1` is never an
addition event — followed by one extra addition of the final call's
count, except when the final reply is a `Configure` reply that the
operator does not accept, in which case the `continue` skips the
post-branch addition and the final count is added exactly once. -/
theorem C10_token_accounting (conn : Conn) (cs : List String)
    (q : String) (r1 : PyDict) (t1 : Nat)
    (rest : List (PyDict × Nat)) (st : ChatState)
    (hk : hasKey r1 "command" = true)
    (hs : sentinelPresent (process_llm_commands conn (cmdList r1)).1 =
      false) :
    ∃ (L : List Nat) (rf : PyDict) (tf : Nat) (st2 : ChatState),
      L = loop_consumed conn rest r1 ∧ L ≠ [] ∧ L.getLast? = some tf ∧
      command_loop conn rest r1 t1
        { turn_begin st q with
            llmCalls := (turn_begin st q).llmCalls + 1 } =
        (rf, tf, st2) ∧
      (run_turn conn cs q ((r1, t1) :: rest) st).adds =
        st.adds ++ L ++
          (if hasKey rf "answer" = false ∧ hasKey rf "configure" = true ∧
              confirm_config_change cs ≠ some true
            then ([] : List Nat) else [tf]) := by
  have hne : r1.isEmpty = false := by
    cases r1 with
    | nil => simp [hasKey, pyGet] at hk
    | cons x xs => rfl
  have hLne : loop_consumed conn rest r1 ≠ [] := by
    cases rest with
    | nil =>
      rw [loop_consumed.eq_def]
      simp [hk, hs]
    | cons hd tl =>
      rw [loop_consumed.eq_def]
      simp [hk, hs]
      split <;> simp
  rcases hout : command_loop conn rest r1 t1
      { turn_begin st q with
          llmCalls := (turn_begin st q).llmCalls + 1 } with ⟨rf, tf0, st2⟩
  obtain ⟨sp1, _, sp3⟩ := command_loop_spec conn rest r1 t1
    { turn_begin st q with
        llmCalls := (turn_begin st q).llmCalls + 1 }
  rw [hout] at sp1 sp3
  simp only at sp1 sp3
  have hb : ({ turn_begin st q with
      llmCalls := (turn_begin st q).llmCalls + 1 } : ChatState).adds =
      st.adds := by
    simp [turn_begin, appendMsg]
  rw [hb] at sp1
  refine ⟨loop_consumed conn rest r1, rf, tf0, st2, rfl, hLne,
    sp3 hLne, rfl, ?_⟩
  unfold run_turn
  simp only [hne, Bool.false_eq_true, if_neg, not_false_iff, hout]
  by_cases ha : hasKey rf "answer"
  · simp [ha, appendMsg, addTok, sp1, List.append_assoc]
  · by_cases hc : hasKey rf "configure"
    · rcases hcc : confirm_config_change cs with _ | b
      · simp [ha, hc, hcc, sp1, List.append_assoc]
      · cases b
        · simp [ha, hc, hcc, sp1, List.append_assoc]
        · simp [ha, hc, hcc, sp1, appendMsg, addTok, List.append_assoc]
    · simp [ha, hc, addTok, sp1, List.append_assoc]

/-- A `Command` reply whose single command passes the safety filter. -/
def demoCmdOnly : PyDict := [("command", PyVal.strList ["show clock"])]

/-- C10 witness: the amended accounting applied to a concrete
command-then-answer turn. -/
theorem C10_witness :
    hasKey demoCmdOnly "command" = true ∧
    sentinelPresent
      (process_llm_commands demoConn (cmdList demoCmdOnly)).1 = false ∧
    (∃ (L : List Nat) (rf : PyDict) (tf : Nat) (st2 : ChatState),
      L = loop_consumed demoConn demoScript demoCmdOnly ∧ L ≠ [] ∧
      L.getLast? = some tf ∧
      command_loop demoConn demoScript demoCmdOnly 5
        { turn_begin (seedState "p") "q" with
            llmCalls := (turn_begin (seedState "p") "q").llmCalls + 1 } =
        (rf, tf, st2) ∧
      (run_turn demoConn ["y"] "q" ((demoCmdOnly, 5) :: demoScript)
          (seedState "p")).adds =
        (seedState "p").adds ++ L ++
          (if hasKey rf "answer" = false ∧ hasKey rf "configure" = true ∧
              confirm_config_change ["y"] ≠ some true
            then ([] : List Nat) else [tf])) :=
  ⟨by decide, by decide,
    C10_token_accounting demoConn ["y"] "q" demoCmdOnly 5 demoScript
      (seedState "p") (by decide) (by decide)⟩

/-- C10 counterexample: first reply `Command` (count 5), one re-query
returning `Configure` (count 7), operator declines: the token
additions of the turn are `[7]` — the final call's count is added only
once (the claim asserts it is added twice), and the first call's count
5 is indeed never added. -/
theorem C10_counterexample :
    (run_turn demoConn ["n"] "q" [(demoCmdOnly, 5), (demoConfReply, 7)]
      (seedState "p")).adds = [7] := by
  decide

/-- C8: an `OpenAIError` during a turn is logged and the loop
continues with the next operator prompt; a `ConnectionException` or
`socket.error` is logged and terminates the process with exit status
1; an unparsable LLM reply is converted to the empty-reply sentinel
with zero tokens, on which the dispatch machine aborts only the
current turn. -/
theorem C8_error_dispositions :
    run_chat_loop_handler TurnError.openAIError =
      LoopDisposition.continueLoop true ∧
    run_chat_loop_handler TurnError.connectionException =
      LoopDisposition.exitProcess 1 true ∧
    run_chat_loop_handler TurnError.socketError =
      LoopDisposition.exitProcess 1 true ∧
    (∀ u, query_llm_api (ApiResult.success u ParseOutcome.parseError) =
      ([], 0)) ∧
    (∀ conn cs q rest st,
      run_turn conn cs q ((([] : PyDict), 0) :: rest) st =
        { turn_begin st q with
            llmCalls := (turn_begin st q).llmCalls + 1 }) := by
  refine ⟨rfl, rfl, rfl, fun u => rfl, ?_⟩
  intro conn cs q rest st
  simp [run_turn]
